import Mathlib

/-!
Verification of the ski-resort score aggregation and ranking core.

The development shallowly embeds the aggregation core of the repository:

* `calcAverages` embeds `frontend/src/lib/calc-averages.ts` (`calcAverages`).
  JavaScript objects with string keys preserve insertion order, so
  `Record<string, number[]>` and the returned `Averages` object are embedded
  as insertion-ordered association lists; `pushField` embeds
  `fieldValues[key].push(value)` (creating the entry on first use) and
  `setKey` embeds the assignment `avg.composite = ...`.
* `sortedResorts` / `rankedResorts` embed the ranking in the frontend `App`
  component: `[...results.resorts].sort((a, b) => avgB.composite - avgA.composite)`
  followed by `rank = index + 1`.  ECMAScript `Array.prototype.sort` is
  specified to be stable, and a stable sort w.r.t. a total preorder has a
  unique result, so the comparator-descending sort is embedded as a stable
  insertion sort on the composite key.
* Numbers are embedded as rationals; all values occurring in the claims are
  exactly representable, so no floating-point rounding is at issue.
* A JSON category value may be a number, `null`, or some other non-numeric
  value (the code guards with `typeof value === "number"`), embedded by
  `CatVal`.  `rating.confidence` is typed `number` in `types.ts`, but the
  code also guards `rating.confidence != null`, so it is embedded as an
  `Option`.
-/

namespace SkiResort

/-- Value of one entry of a rating's `categories` object: a number, `null`,
or any other (non-numeric) JSON value. -/
inductive CatVal where
  | num (q : ℚ)
  | null
  | other
deriving DecidableEq

/-- Embeds the `Rating` interface of `types.ts`.  `confidence` is declared
`number` there, but `calc-averages.ts` additionally guards
`rating.confidence != null`, so the embedding admits the null case. -/
structure Rating where
  confidence : Option ℚ
  notes : String
  categories : List (String × CatVal)
deriving DecidableEq

/-- Embeds the `Camera` interface of `types.ts`. -/
structure Camera where
  camera_name : String
  image_url : Option String
  is_base64 : Bool
  rating : Option Rating
  error : Option String
deriving DecidableEq

/-- Embeds the `Resort` interface of `types.ts`. -/
structure Resort where
  resort_name : String
  resort_key : String
  cameras : List Camera
deriving DecidableEq

/-- Embeds the `AnalysisResults` interface of `types.ts`. -/
structure AnalysisResults where
  updated_at : String
  resorts : List Resort
deriving DecidableEq

/-- The `Averages` object of `calc-averages.ts`: a string-keyed object of
numbers, embedded as an insertion-ordered association list. -/
abbrev Averages := List (String × ℚ)

/-- Embeds `if (!fieldValues[k]) fieldValues[k] = []; fieldValues[k].push(v)`:
append `v` to the entry of key `k`, creating the entry at the end of the
object (JavaScript insertion order) if it is not present. -/
def pushField (k : String) (v : ℚ) : List (String × List ℚ) → List (String × List ℚ)
  | [] => [(k, [v])]
  | (k', vs) :: rest =>
    if k' = k then (k', vs ++ [v]) :: rest else (k', vs) :: pushField k v rest

/-- The (field, value) contributions of one rating, in the order the loop
body of `calc-averages.ts` produces them: first `confidence` when non-null,
then every numeric entry of `categories` in object order. -/
def ratingContribs (r : Rating) : List (String × ℚ) :=
  (match r.confidence with
   | some c => [("confidence", c)]
   | none => []) ++
  r.categories.filterMap (fun kv =>
    match kv.2 with
    | CatVal.num q => some (kv.1, q)
    | _ => none)

/-- All (field, value) contributions of a camera list, in loop order:
cameras with a non-null rating (`.filter(c => c.rating !== null && c.rating !== undefined)`),
each contributing `ratingContribs`. -/
def contribs (cams : List Camera) : List (String × ℚ) :=
  (cams.filterMap Camera.rating).flatMap ratingContribs

/-- Embeds the `fieldValues` accumulation loop of `calc-averages.ts`. -/
def fieldValues (cams : List Camera) : List (String × List ℚ) :=
  (contribs cams).foldl (fun m kv => pushField kv.1 kv.2 m) []

/-- Arithmetic mean of a list of rationals, `sum / length`
(the code's `vals.reduce((a, b) => a + b, 0) / vals.length`). -/
def meanQ (l : List ℚ) : ℚ := l.sum / (l.length : ℚ)

/-- Embeds the `avg[field] = vals.reduce(...) / vals.length` loop. -/
def mkAvg (fv : List (String × List ℚ)) : Averages :=
  fv.map (fun kv => (kv.1, meanQ kv.2))

/-- Embeds a JavaScript property assignment `obj[k] = v` on an
insertion-ordered object: overwrite in place if the key exists, otherwise
append. -/
def setKey (k : String) (v : ℚ) : Averages → Averages
  | [] => [(k, v)]
  | (k', v') :: rest =>
    if k' = k then (k, v) :: rest else (k', v') :: setKey k v rest

/-- Embeds `calcAverages` of `frontend/src/lib/calc-averages.ts`. -/
def calcAverages (cams : List Camera) : Averages :=
  let ratings := cams.filterMap Camera.rating
  if ratings.isEmpty then [("composite", 0)]
  else
    let avg := mkAvg (fieldValues cams)
    let categoryScores := (avg.filter (fun kv => kv.1 ≠ "snow_depth_inches")).map (fun kv => kv.2)
    let composite :=
      if 0 < categoryScores.length then meanQ categoryScores
      else 0
    setKey "composite" composite avg

/-- The `avgB.composite - avgA.composite` comparator reads the `composite`
property of the computed averages; it is always present (see the claims
below), so the default value of the lookup is irrelevant. -/
def compositeOf (r : Resort) : ℚ :=
  (List.lookup "composite" (calcAverages r.cameras)).getD 0

/-- Stable insertion (descending by composite): the new element goes after
every element whose composite is greater than or equal to its own, so an
element arriving later never overtakes an equal one that arrived earlier. -/
def insertDesc (x : Resort) : List Resort → List Resort
  | [] => [x]
  | y :: ys =>
    if compositeOf x ≤ compositeOf y then y :: insertDesc x ys
    else x :: y :: ys

/-- Embeds `[...results.resorts].sort((a, b) => avgB.composite - avgA.composite)`:
the unique stable descending-by-composite reordering of the input. -/
def sortedResorts (rs : List Resort) : List Resort :=
  rs.foldl (fun acc r => insertDesc r acc) []

/-- Embeds `sortedResorts.map((resort, index) => <ResortCard rank={index + 1} ...>)`:
each sorted resort paired with its 1-based position. -/
def rankedResorts (rs : List Resort) : List (ℕ × Resort) :=
  (sortedResorts rs).enumFrom 1

/-- One run of the `App` ranking over a results document.  The component
spreads the array before sorting (`[...results.resorts]`), so the in-place
JavaScript sort only touches the copy; the document comes out of the run
unchanged, which the second component makes explicit. -/
def appRun (doc : AnalysisResults) : List (ℕ × Resort) × AnalysisResults :=
  (rankedResorts doc.resorts, doc)

/-- Division with an explicit zero-denominator check, used to restate the
two divisions of `calcAverages` as fallible operations. -/
def divQ (a : ℚ) (n : ℕ) : Option ℚ :=
  if n = 0 then none else some (a / (n : ℚ))

/-- The per-field average loop with every division checked. -/
def mkAvgChecked : List (String × List ℚ) → Option Averages
  | [] => some []
  | kv :: rest =>
    match divQ kv.2.sum kv.2.length, mkAvgChecked rest with
    | some q, some rest' => some ((kv.1, q) :: rest')
    | _, _ => none

/-- The whole of `calcAverages` with every division checked: returns `none`
iff some division in the corresponding run would divide by zero. -/
def calcAveragesChecked (cams : List Camera) : Option Averages :=
  let ratings := cams.filterMap Camera.rating
  if ratings.isEmpty then some [("composite", 0)]
  else
    (mkAvgChecked (fieldValues cams)).bind (fun avg =>
      let categoryScores := (avg.filter (fun kv => kv.1 ≠ "snow_depth_inches")).map (fun kv => kv.2)
      (if 0 < categoryScores.length then divQ categoryScores.sum categoryScores.length
       else some 0).bind (fun composite => some (setKey "composite" composite avg)))

/-- The values a single camera contributes to field `k` (empty when the
camera has no rating, or no numeric value for `k`). -/
def camContribs (c : Camera) (k : String) : List ℚ :=
  match c.rating with
  | none => []
  | some r => ((ratingContribs r).filter (fun kv => kv.1 == k)).map (fun kv => kv.2)

/-- Modelled from the spec (§4.2 step 3): the ordered list of numeric values
collected for field `k` across all cameras. -/
def fieldContribs (cams : List Camera) (k : String) : List ℚ :=
  ((contribs cams).filter (fun kv => kv.1 == k)).map (fun kv => kv.2)

/-- Modelled from the spec (§4.2 step 1): the field names that received at
least one numeric contribution, in first-occurrence order. -/
def contributedFields (cams : List Camera) : List String :=
  ((contribs cams).map (fun kv => kv.1)).foldl
    (fun acc k => if k ∈ acc then acc else acc ++ [k]) []

/-- Modelled from the spec (§4.2 step 4 and §3 Resort Averages): the
composite is the arithmetic mean of the per-field averages — one average per
contributed field name, `confidence` included (§3 defines Resort Averages as
a mapping from category name including `confidence`) — excluding the field
named `snow_depth_inches`; it is 0 when no field remains after exclusion. -/
def compositeSpec (cams : List Camera) : ℚ :=
  let ks := (contributedFields cams).filter (fun k => k ≠ "snow_depth_inches")
  if 0 < ks.length then meanQ (ks.map (fun k => meanQ (fieldContribs cams k)))
  else 0

/-- The single-level (flat) mean of all raw per-camera per-field samples,
which the spec insists the composite must NOT be. -/
def flatMean (cams : List Camera) : ℚ :=
  meanQ ((contribs cams).map (fun kv => kv.2))

/-- The part of a camera the aggregation may depend on: whether it has a
rating and, if so, the rating's confidence and categories. -/
def ratingView (c : Camera) : Option (Option ℚ × List (String × CatVal)) :=
  c.rating.map (fun r => (r.confidence, r.categories))

/-- The rating views of the cameras that have a rating. -/
def ratedViews (cams : List Camera) : List (Option ℚ × List (String × CatVal)) :=
  (cams.filterMap Camera.rating).map (fun r => (r.confidence, r.categories))

/-- `ratingContribs` expressed on a rating view. -/
def contribsView (rv : Option ℚ × List (String × CatVal)) : List (String × ℚ) :=
  (match rv.1 with
   | some c => [("confidence", c)]
   | none => []) ++
  rv.2.filterMap (fun kv =>
    match kv.2 with
    | CatVal.num q => some (kv.1, q)
    | _ => none)

/-- `calcAverages` rewritten as a function of the rated views only. -/
def calcAveragesView (rvs : List (Option ℚ × List (String × CatVal))) : Averages :=
  if rvs.isEmpty then [("composite", 0)]
  else
    let avg := mkAvg ((rvs.flatMap contribsView).foldl (fun m kv => pushField kv.1 kv.2 m) [])
    let categoryScores := (avg.filter (fun kv => kv.1 ≠ "snow_depth_inches")).map (fun kv => kv.2)
    let composite :=
      if 0 < categoryScores.length then meanQ categoryScores
      else 0
    setKey "composite" composite avg

/-! ## Concrete test data from the spec's testable properties -/

/-- A camera with the given rating and no other distinguishing data. -/
def mkCam (r : Option Rating) : Camera :=
  { camera_name := "cam", image_url := none, is_base64 := false, rating := r, error := none }

/-- Spec P3's single camera: quality 8, snow depth 40 inches, no confidence. -/
def camP3 : Camera :=
  mkCam (some { confidence := none, notes := "",
                categories := [("quality", CatVal.num 8),
                               ("snow_depth_inches", CatVal.num 40)] })

/-- First of spec P4's cameras contributing quality 9. -/
def camQ9a : Camera :=
  mkCam (some { confidence := none, notes := "",
                categories := [("quality", CatVal.num 9)] })

/-- Second of spec P4's cameras contributing quality 9. -/
def camQ9b : Camera :=
  mkCam (some { confidence := none, notes := "",
                categories := [("quality", CatVal.num 9)] })

/-- Spec P4's camera contributing weather 1. -/
def camW1 : Camera :=
  mkCam (some { confidence := none, notes := "",
                categories := [("weather", CatVal.num 1)] })

/-- Spec P2's camera A: quality 8 only. -/
def camA : Camera :=
  mkCam (some { confidence := none, notes := "",
                categories := [("quality", CatVal.num 8)] })

/-- Spec P2's camera B: quality 4 and weather 6. -/
def camB : Camera :=
  mkCam (some { confidence := none, notes := "",
                categories := [("quality", CatVal.num 4),
                               ("weather", CatVal.num 6)] })

/-- An errored camera: no rating, an error message. -/
def camNone : Camera :=
  { camera_name := "down", image_url := none, is_base64 := false,
    rating := none, error := some "fetch failed" }

/-- A rated camera with confidence 8 and quality 6. -/
def camConf1 : Camera :=
  mkCam (some { confidence := some 8, notes := "",
                categories := [("quality", CatVal.num 6)] })

/-- A rated camera with confidence 4 and no assessable categories. -/
def camConf2 : Camera :=
  mkCam (some { confidence := some 4, notes := "", categories := [] })

/-- A camera that carries both a non-null rating and a non-null error. -/
def ratedErr : Camera :=
  { camera_name := "a", image_url := some "https://cam.example/a", is_base64 := true,
    rating := some { confidence := some 9, notes := "clear view",
                     categories := [("quality", CatVal.num 7)] },
    error := some "stream stalled" }

/-- The same rating as `ratedErr` on a camera with different name, image,
encoding flag, notes and no error. -/
def ratedPlain : Camera :=
  { camera_name := "b", image_url := none, is_base64 := false,
    rating := some { confidence := some 9, notes := "different words",
                     categories := [("quality", CatVal.num 7)] },
    error := none }

/-- A resort whose single camera is rated with the given quality only, so
its composite equals that quality value. -/
def resortQ (nm : String) (q : ℚ) : Resort :=
  { resort_name := nm, resort_key := nm,
    cameras := [mkCam (some { confidence := none, notes := "",
                              categories := [("quality", CatVal.num q)] })] }

/-- Spec P5's resort R1 with composite 7. -/
def R1 : Resort := resortQ "R1" 7

/-- Spec P5's resort R2 with composite 9. -/
def R2 : Resort := resortQ "R2" 9

/-- Spec P5's resort R3 with composite 7. -/
def R3 : Resort := resortQ "R3" 7

/-! ## Association-list lemmas -/

theorem lookup_pushField_self (k : String) (v : ℚ) (m : List (String × List ℚ)) :
    List.lookup k (pushField k v m) = some ((List.lookup k m).getD [] ++ [v]) := by
  induction m with
  | nil => simp [pushField]
  | cons kv rest ih =>
    obtain ⟨k', vs⟩ := kv
    by_cases h : k' = k
    · subst h
      simp [pushField, List.lookup_cons]
    · have hbeq : (k == k') = false := by simp [Ne.symm h]
      simp [pushField, h, List.lookup_cons, hbeq, ih]

theorem lookup_pushField_ne (k k' : String) (v : ℚ) (m : List (String × List ℚ))
    (h : k' ≠ k) :
    List.lookup k' (pushField k v m) = List.lookup k' m := by
  induction m with
  | nil =>
    have hbeq : (k' == k) = false := by simp [h]
    simp [pushField, List.lookup_cons, hbeq]
  | cons kv rest ih =>
    obtain ⟨k₀, vs⟩ := kv
    by_cases h0 : k₀ = k
    · subst h0
      have hbeq : (k' == k₀) = false := by simp [h]
      simp [pushField, List.lookup_cons, hbeq]
    · simp [pushField, h0, List.lookup_cons, ih]

theorem keys_pushField (k : String) (v : ℚ) (m : List (String × List ℚ)) :
    (pushField k v m).map Prod.fst =
      if k ∈ m.map Prod.fst then m.map Prod.fst else m.map Prod.fst ++ [k] := by
  induction m with
  | nil => simp [pushField]
  | cons kv rest ih =>
    obtain ⟨k₀, vs⟩ := kv
    by_cases h0 : k₀ = k
    · subst h0
      simp [pushField]
    · by_cases hmem : k ∈ rest.map Prod.fst <;>
        simp [pushField, h0, Ne.symm h0, hmem, ih]

theorem entries_pushField (k : String) (v : ℚ) (m : List (String × List ℚ))
    (h : ∀ kv ∈ m, kv.2 ≠ []) :
    ∀ kv ∈ pushField k v m, kv.2 ≠ [] := by
  induction m with
  | nil =>
    intro kv hkv
    simp only [pushField, List.mem_singleton] at hkv
    subst hkv
    simp
  | cons kv₀ rest ih =>
    obtain ⟨k₀, vs⟩ := kv₀
    intro kv hkv
    simp only [pushField] at hkv
    by_cases h0 : k₀ = k
    · rw [if_pos h0] at hkv
      rcases List.mem_cons.mp hkv with rfl | hmem
      · simp
      · exact h kv (List.mem_cons_of_mem _ hmem)
    · rw [if_neg h0] at hkv
      rcases List.mem_cons.mp hkv with rfl | hmem
      · exact h _ (List.mem_cons_self _ _)
      · exact ih (fun kv' hkv' => h kv' (List.mem_cons_of_mem _ hkv')) kv hmem

theorem lookup_setKey_self (k : String) (v : ℚ) (m : Averages) :
    List.lookup k (setKey k v m) = some v := by
  induction m with
  | nil => simp [setKey, List.lookup_cons]
  | cons kv rest ih =>
    obtain ⟨k₀, v₀⟩ := kv
    by_cases h0 : k₀ = k
    · subst h0
      simp [setKey, List.lookup_cons]
    · have hbeq : (k == k₀) = false := by simp [Ne.symm h0]
      simp [setKey, h0, List.lookup_cons, hbeq, ih]

theorem lookup_setKey_ne (k k' : String) (v : ℚ) (m : Averages) (h : k' ≠ k) :
    List.lookup k' (setKey k v m) = List.lookup k' m := by
  induction m with
  | nil =>
    have hbeq : (k' == k) = false := by simp [h]
    simp [setKey, List.lookup_cons, hbeq]
  | cons kv rest ih =>
    obtain ⟨k₀, v₀⟩ := kv
    by_cases h0 : k₀ = k
    · subst h0
      have hbeq : (k' == k₀) = false := by simp [h]
      simp [setKey, List.lookup_cons, hbeq]
    · simp [setKey, h0, List.lookup_cons, ih]

theorem keys_setKey (k : String) (v : ℚ) (m : Averages) :
    (setKey k v m).map Prod.fst =
      if k ∈ m.map Prod.fst then m.map Prod.fst else m.map Prod.fst ++ [k] := by
  induction m with
  | nil => simp [setKey]
  | cons kv rest ih =>
    obtain ⟨k₀, v₀⟩ := kv
    by_cases h0 : k₀ = k
    · subst h0
      simp [setKey]
    · by_cases hmem : k ∈ rest.map Prod.fst <;>
        simp [setKey, h0, Ne.symm h0, hmem, ih]

theorem lookup_mkAvg (k : String) (fv : List (String × List ℚ)) :
    List.lookup k (mkAvg fv) = (List.lookup k fv).map meanQ := by
  induction fv with
  | nil => simp [mkAvg]
  | cons kv rest ih =>
    obtain ⟨k₀, vs⟩ := kv
    by_cases h0 : k == k₀
    · simp [mkAvg, List.lookup_cons, h0]
    · simp only [Bool.not_eq_true] at h0
      simp only [mkAvg, List.map_cons, List.lookup_cons, h0]
      simpa only [mkAvg] using ih

theorem keys_mkAvg (fv : List (String × List ℚ)) :
    (mkAvg fv).map Prod.fst = fv.map Prod.fst := by
  simp [mkAvg, List.map_map, Function.comp]

theorem lookup_mem {α : Type} (k : String) (v : α) (m : List (String × α))
    (h : List.lookup k m = some v) : (k, v) ∈ m := by
  induction m with
  | nil => simp [List.lookup] at h
  | cons kv rest ih =>
    obtain ⟨k₀, v₀⟩ := kv
    by_cases h0 : k == k₀
    · simp only [List.lookup_cons, h0] at h
      obtain rfl : v₀ = v := by injection h
      obtain rfl : k = k₀ := by simpa using h0
      exact List.mem_cons_self _ _
    · simp only [Bool.not_eq_true] at h0
      simp only [List.lookup_cons, h0] at h
      exact List.mem_cons_of_mem _ (ih h)

theorem lookup_isSome_iff {α : Type} (k : String) (m : List (String × α)) :
    (List.lookup k m).isSome ↔ k ∈ m.map Prod.fst := by
  induction m with
  | nil => simp [List.lookup]
  | cons kv rest ih =>
    obtain ⟨k₀, v₀⟩ := kv
    by_cases h0 : k = k₀
    · subst h0
      simp [List.lookup_cons]
    · have hbeq : (k == k₀) = false := by simp [h0]
      simp [List.lookup_cons, hbeq, h0, ih]

/-! ## The accumulation loop, related to the per-field contribution lists -/

theorem valsOf_foldl (l : List (String × ℚ)) :
    ∀ (m : List (String × List ℚ)) (k : String),
      (List.lookup k (l.foldl (fun m kv => pushField kv.1 kv.2 m) m)).getD [] =
        (List.lookup k m).getD [] ++ (l.filter (fun kv => kv.1 == k)).map (fun kv => kv.2) := by
  induction l with
  | nil => intro m k; simp
  | cons kv l ih =>
    intro m k
    simp only [List.foldl_cons]
    rw [ih]
    by_cases hb : kv.1 = k
    · subst hb
      rw [lookup_pushField_self]
      simp [List.append_assoc]
    · have hbeq : (kv.1 == k) = false := by simp [hb]
      rw [lookup_pushField_ne _ _ _ _ (fun hk => hb hk.symm)]
      simp [hbeq]

theorem keys_foldl (l : List (String × ℚ)) :
    ∀ (m : List (String × List ℚ)),
      ((l.foldl (fun m kv => pushField kv.1 kv.2 m) m).map Prod.fst) =
        (l.map (fun kv => kv.1)).foldl
          (fun acc k => if k ∈ acc then acc else acc ++ [k]) (m.map Prod.fst) := by
  induction l with
  | nil => intro m; simp
  | cons kv l ih =>
    intro m
    simp only [List.foldl_cons, List.map_cons]
    rw [ih, keys_pushField]

theorem mem_dedup_foldl (l : List String) :
    ∀ (acc : List String) (k : String),
      k ∈ l.foldl (fun acc k => if k ∈ acc then acc else acc ++ [k]) acc ↔
        k ∈ acc ∨ k ∈ l := by
  induction l with
  | nil => intro acc k; simp
  | cons a l ih =>
    intro acc k
    simp only [List.foldl_cons]
    rw [ih]
    by_cases ha : a ∈ acc
    · rw [if_pos ha]
      constructor
      · rintro (h | h)
        · exact Or.inl h
        · exact Or.inr (List.mem_cons_of_mem _ h)
      · rintro (h | h)
        · exact Or.inl h
        · rcases List.mem_cons.mp h with rfl | h
          · exact Or.inl ha
          · exact Or.inr h
    · rw [if_neg ha]
      simp only [List.mem_append, List.mem_singleton, List.mem_cons]
      tauto

theorem nodup_dedup_foldl (l : List String) :
    ∀ (acc : List String), acc.Nodup →
      (l.foldl (fun acc k => if k ∈ acc then acc else acc ++ [k]) acc).Nodup := by
  induction l with
  | nil => intro acc h; simpa using h
  | cons a l ih =>
    intro acc h
    simp only [List.foldl_cons]
    by_cases ha : a ∈ acc
    · rw [if_pos ha]; exact ih acc h
    · rw [if_neg ha]
      refine ih _ ?_
      simp [List.nodup_append, h, ha]

theorem entries_foldl (l : List (String × ℚ)) :
    ∀ (m : List (String × List ℚ)), (∀ kv ∈ m, kv.2 ≠ []) →
      ∀ kv ∈ l.foldl (fun m kv => pushField kv.1 kv.2 m) m, kv.2 ≠ [] := by
  induction l with
  | nil => intro m h; simpa using h
  | cons kv l ih =>
    intro m h
    simp only [List.foldl_cons]
    exact ih _ (entries_pushField _ _ _ h)

theorem valsOf_fieldValues (cams : List Camera) (k : String) :
    (List.lookup k (fieldValues cams)).getD [] = fieldContribs cams k := by
  rw [fieldValues, valsOf_foldl]
  simp [fieldContribs]

theorem keys_fieldValues (cams : List Camera) :
    (fieldValues cams).map Prod.fst = contributedFields cams := by
  rw [fieldValues, keys_foldl]
  simp [contributedFields]

theorem keys_fieldValues_nodup (cams : List Camera) :
    ((fieldValues cams).map Prod.fst).Nodup := by
  rw [keys_fieldValues, contributedFields]
  exact nodup_dedup_foldl _ _ List.nodup_nil

theorem mem_contributedFields (cams : List Camera) (k : String) :
    k ∈ contributedFields cams ↔ k ∈ (contribs cams).map (fun kv => kv.1) := by
  rw [contributedFields, mem_dedup_foldl]
  simp

theorem fieldContribs_ne_nil_iff (cams : List Camera) (k : String) :
    fieldContribs cams k ≠ [] ↔ k ∈ (contribs cams).map (fun kv => kv.1) := by
  constructor
  · intro h
    by_contra hmem
    apply h
    have : ∀ kv ∈ contribs cams, ¬(kv.1 == k) = true := by
      intro kv hkv hbeq
      exact hmem (List.mem_map.mpr ⟨kv, hkv, by simpa using hbeq⟩)
    simp [fieldContribs, List.filter_eq_nil_iff.mpr this]
  · intro hmem h
    rcases List.mem_map.mp hmem with ⟨kv, hkv, rfl⟩
    have : kv.2 ∈ fieldContribs cams kv.1 := by
      refine List.mem_map.mpr ⟨kv, ?_, rfl⟩
      exact List.mem_filter.mpr ⟨hkv, by simp⟩
    rw [h] at this
    simp at this

theorem entries_fieldValues (cams : List Camera) :
    ∀ kv ∈ fieldValues cams, kv.2 ≠ [] := by
  rw [fieldValues]
  exact entries_foldl _ _ (by simp)

theorem lookup_fieldValues_eq_some (cams : List Camera) (k : String)
    (h : fieldContribs cams k ≠ []) :
    List.lookup k (fieldValues cams) = some (fieldContribs cams k) := by
  cases hl : List.lookup k (fieldValues cams) with
  | none =>
    exfalso
    apply h
    rw [← valsOf_fieldValues, hl]
    rfl
  | some vs =>
    have : vs = fieldContribs cams k := by
      rw [← valsOf_fieldValues, hl]
      rfl
    rw [this]

theorem lookup_fieldValues_eq_none (cams : List Camera) (k : String)
    (h : fieldContribs cams k = []) :
    List.lookup k (fieldValues cams) = none := by
  cases hl : List.lookup k (fieldValues cams) with
  | none => rfl
  | some vs =>
    exfalso
    have hvs : vs = fieldContribs cams k := by
      rw [← valsOf_fieldValues, hl]
      rfl
    exact entries_fieldValues cams (k, vs) (lookup_mem k vs _ hl) (by rw [hvs, h])

theorem contribs_of_ratings_nil (cams : List Camera)
    (h : cams.filterMap Camera.rating = []) : contribs cams = [] := by
  rw [contribs, h]
  rfl

theorem ratings_ne_nil_of_contribs_ne (cams : List Camera)
    (h : contribs cams ≠ []) : cams.filterMap Camera.rating ≠ [] := by
  intro hr
  exact h (contribs_of_ratings_nil cams hr)

/-- Projection of an association list with distinct keys through its key
list: filtering on keys and mapping a function of the values can be read
off the key list via lookups. -/
theorem assoc_proj (m : List (String × List ℚ)) (hm : (m.map Prod.fst).Nodup)
    (P : String → Bool) (g : List ℚ → ℚ) :
    (m.filter (fun kv => P kv.1)).map (fun kv => g kv.2)
      = ((m.map Prod.fst).filter P).map (fun k => g ((List.lookup k m).getD [])) := by
  induction m with
  | nil => simp
  | cons kv rest ih =>
    obtain ⟨k₀, vs⟩ := kv
    simp only [List.map_cons, List.nodup_cons] at hm
    obtain ⟨hk₀, hrest⟩ := hm
    have htail : ((rest.map Prod.fst).filter P).map
          (fun k => g ((List.lookup k ((k₀, vs) :: rest)).getD []))
        = ((rest.map Prod.fst).filter P).map
          (fun k => g ((List.lookup k rest).getD [])) := by
      apply List.map_congr_left
      intro k hk
      have hkmem : k ∈ rest.map Prod.fst := List.mem_of_mem_filter hk
      have hne : (k == k₀) = false := by
        simp only [beq_eq_false_iff_ne, ne_eq]
        intro hkk
        exact hk₀ (hkk ▸ hkmem)
      rw [List.lookup_cons, hne]
    by_cases hP : P k₀
    · simp only [List.filter_cons, hP, List.map_cons, if_pos]
      rw [htail, ih hrest]
      congr 1
      rw [List.lookup_cons]
      simp
    · have hP' : P k₀ = false := by simpa using hP
      simp only [List.map_cons, List.filter_cons, hP', Bool.false_eq_true, if_false]
      rw [htail, ih hrest]

/-! ## Characterizations of the aggregated averages -/

theorem categoryScores_eq (cams : List Camera) :
    ((mkAvg (fieldValues cams)).filter (fun kv => kv.1 ≠ "snow_depth_inches")).map
        (fun kv => kv.2)
      = ((contributedFields cams).filter (fun k => k ≠ "snow_depth_inches")).map
          (fun k => meanQ (fieldContribs cams k)) := by
  have h1 : (mkAvg (fieldValues cams)).filter (fun kv => kv.1 ≠ "snow_depth_inches")
      = ((fieldValues cams).filter (fun kv => kv.1 ≠ "snow_depth_inches")).map
          (fun kv => (kv.1, meanQ kv.2)) := by
    rw [mkAvg, List.filter_map]
    rfl
  rw [h1, List.map_map]
  have h2 := assoc_proj (fieldValues cams) (keys_fieldValues_nodup cams)
      (fun k => decide (k ≠ "snow_depth_inches")) meanQ
  have h3 : ((fieldValues cams).filter (fun kv => kv.1 ≠ "snow_depth_inches")).map
        ((fun kv => kv.2) ∘ fun kv => (kv.1, meanQ kv.2))
      = ((fieldValues cams).filter (fun kv => kv.1 ≠ "snow_depth_inches")).map
        (fun kv => meanQ kv.2) := rfl
  rw [h3, h2, keys_fieldValues]
  apply List.map_congr_left
  intro k _
  rw [valsOf_fieldValues]

theorem lookup_composite_calcAverages (cams : List Camera)
    (h : cams.filterMap Camera.rating ≠ []) :
    List.lookup "composite" (calcAverages cams) = some (compositeSpec cams) := by
  have hne : (cams.filterMap Camera.rating).isEmpty = false := List.isEmpty_eq_false.mpr h
  simp only [calcAverages, hne, Bool.false_eq_true, if_false]
  rw [lookup_setKey_self]
  rw [categoryScores_eq]
  rw [compositeSpec]
  simp only [List.length_map]

theorem lookup_field_calcAverages (cams : List Camera) (k : String)
    (hk : k ≠ "composite") (h : fieldContribs cams k ≠ []) :
    List.lookup k (calcAverages cams) = some (meanQ (fieldContribs cams k)) := by
  have hmem : k ∈ (contribs cams).map (fun kv => kv.1) :=
    (fieldContribs_ne_nil_iff cams k).mp h
  have hc : contribs cams ≠ [] := by
    intro hnil
    rw [hnil] at hmem
    simp at hmem
  have hr := ratings_ne_nil_of_contribs_ne cams hc
  have hne : (cams.filterMap Camera.rating).isEmpty = false := List.isEmpty_eq_false.mpr hr
  simp only [calcAverages, hne, Bool.false_eq_true, if_false]
  rw [lookup_setKey_ne _ _ _ _ hk, lookup_mkAvg, lookup_fieldValues_eq_some cams k h]
  rfl

theorem lookup_none_calcAverages (cams : List Camera) (k : String)
    (hk : k ≠ "composite") (h : fieldContribs cams k = []) :
    List.lookup k (calcAverages cams) = none := by
  by_cases hr : cams.filterMap Camera.rating = []
  · have hemp : (cams.filterMap Camera.rating).isEmpty = true := by
      rw [hr]; rfl
    have hbeq : (k == "composite") = false := by simp [hk]
    simp [calcAverages, hemp, List.lookup_cons, hbeq]
  · have hne : (cams.filterMap Camera.rating).isEmpty = false := List.isEmpty_eq_false.mpr hr
    simp only [calcAverages, hne, Bool.false_eq_true, if_false]
    rw [lookup_setKey_ne _ _ _ _ hk, lookup_mkAvg, lookup_fieldValues_eq_none cams k h]
    rfl

theorem keys_calcAverages (cams : List Camera)
    (h : "composite" ∉ (contribs cams).map (fun kv => kv.1)) :
    (calcAverages cams).map Prod.fst = contributedFields cams ++ ["composite"] := by
  by_cases hr : cams.filterMap Camera.rating = []
  · have hemp : (cams.filterMap Camera.rating).isEmpty = true := by
      rw [hr]; rfl
    have hcf : contributedFields cams = [] := by
      rw [contributedFields, contribs_of_ratings_nil cams hr]
      rfl
    simp [calcAverages, hemp, hcf]
  · have hne : (cams.filterMap Camera.rating).isEmpty = false := List.isEmpty_eq_false.mpr hr
    simp only [calcAverages, hne, Bool.false_eq_true, if_false]
    rw [keys_setKey, keys_mkAvg, keys_fieldValues]
    rw [if_neg (fun hmem => h ((mem_contributedFields cams "composite").mp hmem))]

theorem composite_mem_keys (cams : List Camera) :
    "composite" ∈ (calcAverages cams).map Prod.fst := by
  by_cases hr : cams.filterMap Camera.rating = []
  · have hemp : (cams.filterMap Camera.rating).isEmpty = true := by
      rw [hr]; rfl
    simp [calcAverages, hemp]
  · have hne : (cams.filterMap Camera.rating).isEmpty = false := List.isEmpty_eq_false.mpr hr
    simp only [calcAverages, hne, Bool.false_eq_true, if_false]
    rw [keys_setKey]
    by_cases hmem : "composite" ∈ (mkAvg (fieldValues cams)).map Prod.fst
    · rw [if_pos hmem]; exact hmem
    · rw [if_neg hmem]; simp

theorem lookup_composite_isSome (cams : List Camera) :
    (List.lookup "composite" (calcAverages cams)).isSome := by
  rw [lookup_isSome_iff]
  exact composite_mem_keys cams

/-! ## Ranking lemmas -/

theorem insertDesc_perm (x : Resort) (l : List Resort) :
    (insertDesc x l).Perm (x :: l) := by
  induction l with
  | nil => simp [insertDesc]
  | cons y ys ih =>
    rw [insertDesc]
    by_cases h : compositeOf x ≤ compositeOf y
    · rw [if_pos h]
      exact (ih.cons y).trans (List.Perm.swap x y ys)
    · rw [if_neg h]

theorem insertDesc_pairwise (x : Resort) (l : List Resort)
    (h : l.Pairwise (fun a b => compositeOf b ≤ compositeOf a)) :
    (insertDesc x l).Pairwise (fun a b => compositeOf b ≤ compositeOf a) := by
  induction l with
  | nil => simp [insertDesc]
  | cons y ys ih =>
    rcases List.pairwise_cons.mp h with ⟨hy, hys⟩
    rw [insertDesc]
    by_cases hxy : compositeOf x ≤ compositeOf y
    · rw [if_pos hxy]
      refine List.pairwise_cons.mpr ⟨?_, ih hys⟩
      intro z hz
      rcases List.mem_cons.mp ((insertDesc_perm x ys).mem_iff.mp hz) with rfl | hzys
      · exact hxy
      · exact hy z hzys
    · rw [if_neg hxy]
      push_neg at hxy
      refine List.pairwise_cons.mpr ⟨?_, h⟩
      intro z hz
      rcases List.mem_cons.mp hz with rfl | hzys
      · exact le_of_lt hxy
      · exact le_trans (hy z hzys) (le_of_lt hxy)

theorem sortedResorts_perm (rs : List Resort) : (sortedResorts rs).Perm rs := by
  suffices h : ∀ (rs acc : List Resort),
      (rs.foldl (fun acc r => insertDesc r acc) acc).Perm (acc ++ rs) by
    simpa [sortedResorts] using h rs []
  intro rs
  induction rs with
  | nil => intro acc; simp
  | cons r rs ih =>
    intro acc
    simp only [List.foldl_cons]
    refine (ih (insertDesc r acc)).trans ?_
    refine ((insertDesc_perm r acc).append_right rs).trans ?_
    exact List.perm_middle.symm

theorem sortedResorts_pairwise (rs : List Resort) :
    (sortedResorts rs).Pairwise (fun a b => compositeOf b ≤ compositeOf a) := by
  suffices h : ∀ (rs acc : List Resort),
      acc.Pairwise (fun a b => compositeOf b ≤ compositeOf a) →
      (rs.foldl (fun acc r => insertDesc r acc) acc).Pairwise
        (fun a b => compositeOf b ≤ compositeOf a) by
    simpa [sortedResorts] using h rs [] (by simp)
  intro rs
  induction rs with
  | nil => intro acc h; simpa using h
  | cons r rs ih =>
    intro acc h
    simp only [List.foldl_cons]
    exact ih _ (insertDesc_pairwise r acc h)

theorem filter_insertDesc (q : ℚ) (x : Resort) (l : List Resort)
    (h : l.Pairwise (fun a b => compositeOf b ≤ compositeOf a)) :
    (insertDesc x l).filter (fun r => compositeOf r == q)
      = if compositeOf x == q then l.filter (fun r => compositeOf r == q) ++ [x]
        else l.filter (fun r => compositeOf r == q) := by
  induction l with
  | nil =>
    cases hxq : compositeOf x == q <;> simp [insertDesc, List.filter_cons, hxq]
  | cons y ys ih =>
    rcases List.pairwise_cons.mp h with ⟨hy, hys⟩
    rw [insertDesc]
    by_cases hxy : compositeOf x ≤ compositeOf y
    · rw [if_pos hxy, List.filter_cons, ih hys]
      cases hyq : compositeOf y == q <;> cases hxq : compositeOf x == q <;>
        simp [hyq, hxq, List.filter_cons]
    · rw [if_neg hxy]
      push_neg at hxy
      by_cases hxq : (compositeOf x == q) = true
      · have hq : compositeOf x = q := by simpa using hxq
        have hempty : (y :: ys).filter (fun r => compositeOf r == q) = [] := by
          apply List.filter_eq_nil_iff.mpr
          intro z hz
          have hzle : compositeOf z ≤ compositeOf y := by
            rcases List.mem_cons.mp hz with rfl | hzys
            · exact le_rfl
            · exact hy z hzys
          have hzlt : compositeOf z < compositeOf x := lt_of_le_of_lt hzle hxy
          simp only [beq_iff_eq, ← hq]
          exact fun hc => absurd hc (ne_of_lt hzlt)
        rw [List.filter_cons, if_pos (by simpa using hxq), hempty]
        simp [hxq]
      · have hxq' : (compositeOf x == q) = false := by simpa using hxq
        rw [List.filter_cons, List.filter_cons]
        simp [hxq']

theorem sortedResorts_stable (rs : List Resort) (q : ℚ) :
    (sortedResorts rs).filter (fun r => compositeOf r == q)
      = rs.filter (fun r => compositeOf r == q) := by
  suffices h : ∀ (rs acc : List Resort),
      acc.Pairwise (fun a b => compositeOf b ≤ compositeOf a) →
      (rs.foldl (fun acc r => insertDesc r acc) acc).filter (fun r => compositeOf r == q)
        = acc.filter (fun r => compositeOf r == q) ++ rs.filter (fun r => compositeOf r == q) by
    simpa [sortedResorts] using h rs [] (by simp)
  intro rs
  induction rs with
  | nil => intro acc h; simp
  | cons r rs ih =>
    intro acc hacc
    simp only [List.foldl_cons]
    rw [ih _ (insertDesc_pairwise r acc hacc), filter_insertDesc q r acc hacc,
      List.filter_cons]
    cases hrq : compositeOf r == q <;> simp [hrq]

theorem rankedResorts_map_fst (rs : List Resort) :
    (rankedResorts rs).map Prod.fst = List.range' 1 rs.length := by
  rw [rankedResorts, List.enumFrom_map_fst, (sortedResorts_perm rs).length_eq]

theorem rankedResorts_map_snd (rs : List Resort) :
    (rankedResorts rs).map Prod.snd = sortedResorts rs := by
  rw [rankedResorts, List.enumFrom_map_snd]

/-! ## Dependence on the rating views only -/

theorem ratedViews_eq_filterMap (cams : List Camera) :
    ratedViews cams = cams.filterMap ratingView := by
  rw [ratedViews, List.map_filterMap]
  rfl

theorem calcAverages_eq_view (cams : List Camera) :
    calcAverages cams = calcAveragesView (ratedViews cams) := by
  have hemp : (ratedViews cams).isEmpty = (cams.filterMap Camera.rating).isEmpty := by
    rw [ratedViews]
    cases cams.filterMap Camera.rating <;> rfl
  have hcontribs : (ratedViews cams).flatMap contribsView = contribs cams := by
    rw [ratedViews, List.flatMap_map]
    rfl
  rw [calcAverages, calcAveragesView, hemp, hcontribs]
  rfl

theorem calcAverages_view_congr (cs1 cs2 : List Camera)
    (h : cs1.map ratingView = cs2.map ratingView) :
    calcAverages cs1 = calcAverages cs2 := by
  rw [calcAverages_eq_view, calcAverages_eq_view]
  have h1 : ∀ cs : List Camera, cs.filterMap ratingView = (cs.map ratingView).filterMap id := by
    intro cs
    rw [List.filterMap_map]
    rfl
  rw [ratedViews_eq_filterMap, ratedViews_eq_filterMap, h1, h1, h]

/-! ## Checked-division lemmas -/

theorem mkAvgChecked_eq (fv : List (String × List ℚ)) (h : ∀ kv ∈ fv, kv.2 ≠ []) :
    mkAvgChecked fv = some (mkAvg fv) := by
  induction fv with
  | nil => rfl
  | cons kv rest ih =>
    have hkv : kv.2 ≠ [] := h kv (List.mem_cons_self _ _)
    have hlen : kv.2.length ≠ 0 := by
      simpa [List.length_eq_zero] using hkv
    rw [mkAvgChecked, ih (fun kv' hkv' => h kv' (List.mem_cons_of_mem _ hkv')),
      divQ, if_neg hlen]
    rfl

/-! ## Per-camera contribution lemmas -/

theorem filterMap_flatMap_eq (cams : List Camera) (F : Rating → List ℚ) :
    (cams.filterMap Camera.rating).flatMap F
      = cams.flatMap (fun c =>
          match c.rating with
          | none => []
          | some r => F r) := by
  induction cams with
  | nil => rfl
  | cons c rest ih =>
    cases hc : c.rating with
    | none => simp [List.filterMap_cons, List.flatMap_cons, hc, ih]
    | some r => simp [List.filterMap_cons, List.flatMap_cons, hc, ih]

theorem fieldContribs_eq_camContribs (cams : List Camera) (k : String) :
    fieldContribs cams k = cams.flatMap (fun c => camContribs c k) := by
  rw [fieldContribs, contribs, List.filter_flatMap, List.map_flatMap,
    filterMap_flatMap_eq cams (fun r => ((ratingContribs r).filter
      (fun kv => kv.1 == k)).map (fun kv => kv.2))]
  have hfun : (fun c : Camera =>
        match c.rating with
        | none => ([] : List ℚ)
        | some r => ((ratingContribs r).filter (fun kv => kv.1 == k)).map (fun kv => kv.2))
      = fun c => camContribs c k := by
    funext c
    cases hc : c.rating <;> simp [camContribs, hc]
  rw [hfun]

theorem fieldContribs_ne_iff_exists (cams : List Camera) (k : String) :
    fieldContribs cams k ≠ [] ↔ ∃ c ∈ cams, camContribs c k ≠ [] := by
  rw [fieldContribs_eq_camContribs, Ne, List.flatMap_eq_nil_iff]
  push_neg
  rfl

theorem length_flatMap_of_le_one (cams : List Camera) (k : String)
    (h : ∀ c ∈ cams, (camContribs c k).length ≤ 1) :
    (cams.flatMap (fun c => camContribs c k)).length
      = (cams.filter (fun c => !(camContribs c k).isEmpty)).length := by
  induction cams with
  | nil => rfl
  | cons c rest ih =>
    have ihrest := ih (fun c' hc' => h c' (List.mem_cons_of_mem _ hc'))
    simp only [List.flatMap_cons, List.length_append, List.filter_cons]
    by_cases hce : (camContribs c k).isEmpty = true
    · have hnil : camContribs c k = [] := List.isEmpty_iff.mp hce
      simp [hnil, hce, ihrest]
    · have hne : camContribs c k ≠ [] := by
        intro hnil
        exact hce (by rw [hnil]; rfl)
      have h1 : (camContribs c k).length = 1 := by
        have hle := h c (List.mem_cons_self _ _)
        have hpos : 0 < (camContribs c k).length :=
          List.length_pos.mpr hne
        omega
      have hce' : (camContribs c k).isEmpty = false := by
        simpa using hce
      simp [h1, hce', ihrest, Nat.add_comm]

/-! ## Confidence aggregation lemmas -/

theorem confidence_contribs_of_ratings (rl : List Rating)
    (h3 : ∀ r ∈ rl, ∀ kv ∈ r.categories, kv.1 ≠ "confidence") :
    ((rl.flatMap ratingContribs).filter (fun kv => kv.1 == "confidence")).map
        (fun kv => kv.2)
      = rl.filterMap Rating.confidence := by
  induction rl with
  | nil => rfl
  | cons r rest ih =>
    have hr := h3 r (List.mem_cons_self _ _)
    have ihrest := ih (fun r' hr' => h3 r' (List.mem_cons_of_mem _ hr'))
    rw [List.flatMap_cons, List.filter_append, List.map_append, ihrest]
    have hcat : ((r.categories.filterMap (fun kv =>
        match kv.2 with
        | CatVal.num q => some (kv.1, q)
        | _ => none)).filter (fun kv => kv.1 == "confidence")) = [] := by
      apply List.filter_eq_nil_iff.mpr
      intro kv hkv
      simp only [List.mem_filterMap] at hkv
      obtain ⟨kv₀, hkv₀, hmatch⟩ := hkv
      cases hv : kv₀.2 with
      | num q =>
        rw [hv] at hmatch
        have hpair : (kv₀.1, q) = kv := by simpa using hmatch
        have hne : kv₀.1 ≠ "confidence" := hr kv₀ hkv₀
        rw [← hpair]
        simpa using hne
      | null =>
        rw [hv] at hmatch
        simp at hmatch
      | other =>
        rw [hv] at hmatch
        simp at hmatch
    rw [ratingContribs, List.filter_append, hcat, List.append_nil]
    cases hc : r.confidence with
    | none => simp [List.filterMap_cons, hc]
    | some c => simp [List.filterMap_cons, hc]

theorem fieldContribs_confidence (cams : List Camera)
    (h3 : ∀ r ∈ cams.filterMap Camera.rating, ∀ kv ∈ r.categories, kv.1 ≠ "confidence") :
    fieldContribs cams "confidence"
      = (cams.filterMap Camera.rating).filterMap Rating.confidence := by
  rw [fieldContribs, contribs]
  exact confidence_contribs_of_ratings _ h3

theorem length_filterMap_confidence (rl : List Rating)
    (h : ∀ r ∈ rl, r.confidence ≠ none) :
    (rl.filterMap Rating.confidence).length = rl.length := by
  induction rl with
  | nil => rfl
  | cons r rest ih =>
    have hr := h r (List.mem_cons_self _ _)
    cases hc : r.confidence with
    | none => exact absurd hc hr
    | some c =>
      simp [List.filterMap_cons, hc,
        ih (fun r' hr' => h r' (List.mem_cons_of_mem _ hr'))]

/-! ## The claims -/

/-- C1: for every resort with at least one rated camera, the composite score
equals the arithmetic mean of the per-category averages — the entries of the
Resort Averages mapping, which per the spec's data model is keyed by
category name including `confidence` — with the snow-depth field excluded by
exact key name (`snow_depth_inches`); in particular, for a resort whose
single camera is rated with quality 8 and snow depth 40, the averages map
the snow-depth field to 40 while composite equals exactly 8, not a blend
with 40. -/
theorem claim_C1_composite_excludes_snow_depth :
    (∀ cams : List Camera, cams.filterMap Camera.rating ≠ [] →
        List.lookup "composite" (calcAverages cams) = some (compositeSpec cams))
    ∧ List.lookup "snow_depth_inches" (calcAverages [camP3]) = some 40
    ∧ List.lookup "composite" (calcAverages [camP3]) = some 8 := by
  have hval : calcAverages [camP3]
      = [("quality", 8), ("snow_depth_inches", 40), ("composite", 8)] := by
    simp [calcAverages, fieldValues, contribs, ratingContribs, camP3, mkCam,
      mkAvg, meanQ, pushField, setKey]
  refine ⟨lookup_composite_calcAverages, ?_, ?_⟩ <;> rw [hval] <;> decide

/-- C1 witness: the universal part of C1 applied to the concrete one-camera
resort of spec P3. -/
theorem claim_C1_witness :
    List.lookup "composite" (calcAverages [camP3]) = some (compositeSpec [camP3]) :=
  claim_C1_composite_excludes_snow_depth.1 [camP3] (by decide)

/-- C2: the composite is a two-level mean — per-field means over just the
contributing cameras, then the mean of those per-field means excluding
`snow_depth_inches` — never the flat mean of all raw samples; rated cameras
contributing quality values [9, 9] and a weather value [1] yield composite
5, not the flat mean 19/3 of [9, 9, 1]. -/
theorem claim_C2_composite_two_level_mean :
    (∀ cams : List Camera,
        ((contributedFields cams).filter (fun k => k ≠ "snow_depth_inches")) ≠ [] →
        List.lookup "composite" (calcAverages cams)
          = some (meanQ (((contributedFields cams).filter
              (fun k => k ≠ "snow_depth_inches")).map
                (fun k => meanQ (fieldContribs cams k)))))
    ∧ List.lookup "composite" (calcAverages [camQ9a, camQ9b, camW1]) = some 5
    ∧ flatMean [camQ9a, camQ9b, camW1] = 19/3
    ∧ List.lookup "composite" (calcAverages [camQ9a, camQ9b, camW1])
        ≠ some (flatMean [camQ9a, camQ9b, camW1]) := by
  have huniv : ∀ cams : List Camera,
      ((contributedFields cams).filter (fun k => k ≠ "snow_depth_inches")) ≠ [] →
      List.lookup "composite" (calcAverages cams)
        = some (meanQ (((contributedFields cams).filter
            (fun k => k ≠ "snow_depth_inches")).map
              (fun k => meanQ (fieldContribs cams k)))) := by
    intro cams h
    have hkne : contributedFields cams ≠ [] := by
      intro hnil
      apply h
      rw [hnil]
      rfl
    have hcne : contribs cams ≠ [] := by
      intro hnil
      apply hkne
      rw [contributedFields, hnil]
      rfl
    rw [lookup_composite_calcAverages cams (ratings_ne_nil_of_contribs_ne cams hcne),
      compositeSpec]
    simp only [if_pos (List.length_pos.mpr h)]
  have hval : calcAverages [camQ9a, camQ9b, camW1]
      = [("quality", 9), ("weather", 1), ("composite", 5)] := by
    simp [calcAverages, fieldValues, contribs, ratingContribs, camQ9a, camQ9b,
      camW1, mkCam, mkAvg, meanQ, pushField, setKey]
    norm_num
  have hflat : flatMean [camQ9a, camQ9b, camW1] = 19/3 := by
    simp [flatMean, contribs, ratingContribs, camQ9a, camQ9b, camW1, mkCam, meanQ]
    norm_num
  have hlook : List.lookup "composite"
      [("quality", (9 : ℚ)), ("weather", 1), ("composite", 5)] = some 5 := by
    decide
  refine ⟨huniv, ?_, hflat, ?_⟩
  · rw [hval]
    exact hlook
  · rw [hval, hflat, hlook]
    simp only [Ne, Option.some.injEq]
    norm_num

/-- C2 witness: the universal part of C2 applied to the three cameras of
spec P4. -/
theorem claim_C2_witness :
    List.lookup "composite" (calcAverages [camQ9a, camQ9b, camW1])
      = some (meanQ (((contributedFields [camQ9a, camQ9b, camW1]).filter
          (fun k => k ≠ "snow_depth_inches")).map
            (fun k => meanQ (fieldContribs [camQ9a, camQ9b, camW1] k)))) :=
  claim_C2_composite_two_level_mean.1 [camQ9a, camQ9b, camW1] (by decide)

/-- C3: for every resort in which every camera's rating is null — and more
generally whenever no camera produces any rating contribution — the
aggregator returns exactly the one-key mapping `composite ↦ 0` and nothing
else, as a normal result. -/
theorem claim_C3_all_null_gives_composite_zero :
    ∀ cams : List Camera,
      ((∀ c ∈ cams, c.rating = none) → calcAverages cams = [("composite", 0)])
      ∧ (contribs cams = [] → calcAverages cams = [("composite", 0)]) := by
  intro cams
  constructor
  · intro h
    have hr : cams.filterMap Camera.rating = [] := List.filterMap_eq_nil_iff.mpr h
    have hemp : (cams.filterMap Camera.rating).isEmpty = true := by
      rw [hr]
      rfl
    simp [calcAverages, hemp]
  · intro h
    by_cases hr : cams.filterMap Camera.rating = []
    · have hemp : (cams.filterMap Camera.rating).isEmpty = true := by
        rw [hr]
        rfl
      simp [calcAverages, hemp]
    · have hne : (cams.filterMap Camera.rating).isEmpty = false :=
        List.isEmpty_eq_false.mpr hr
      have hfv : fieldValues cams = [] := by
        rw [fieldValues, h]
        rfl
      simp only [calcAverages, hne, Bool.false_eq_true, if_false, hfv]
      rfl

/-- C3 witness: C3 applied to a resort whose single camera errored and has a
null rating. -/
theorem claim_C3_witness : calcAverages [camNone] = [("composite", 0)] :=
  (claim_C3_all_null_gives_composite_zero [camNone]).1 (by decide)

/-- C7: the aggregation is total over every well-typed input — the checked
variant, which returns `none` as soon as any division would have a zero
denominator or any other exceptional path were reached, always returns
`some` and agrees with `calcAverages`, on empty camera lists, all-errored
resorts, absent ratings, null and non-numeric category values alike. -/
theorem claim_C7_total_no_division_by_zero :
    ∀ cams : List Camera, calcAveragesChecked cams = some (calcAverages cams) := by
  intro cams
  by_cases hr : cams.filterMap Camera.rating = []
  · have hemp : (cams.filterMap Camera.rating).isEmpty = true := by
      rw [hr]
      rfl
    simp [calcAveragesChecked, calcAverages, hemp]
  · have hne : (cams.filterMap Camera.rating).isEmpty = false :=
      List.isEmpty_eq_false.mpr hr
    simp only [calcAveragesChecked, calcAverages, hne, Bool.false_eq_true, if_false]
    rw [mkAvgChecked_eq _ (entries_fieldValues cams), Option.some_bind]
    by_cases hcs : 0 < (((mkAvg (fieldValues cams)).filter
        (fun kv => kv.1 ≠ "snow_depth_inches")).map (fun kv => kv.2)).length
    · rw [if_pos hcs, if_pos hcs, divQ, if_neg (Nat.pos_iff_ne_zero.mp hcs),
        Option.some_bind]
      rfl
    · rw [if_neg hcs, if_neg hcs, Option.some_bind]

/-- C8: aggregation and ranking are pure — running the app's ranking twice
on the same document yields identical output, the document comes out of the
run unchanged, and the ranked output consists of exactly the input resorts
(a permutation, no resort modified, added or dropped). -/
theorem claim_C8_pure_idempotent_no_mutation :
    ∀ doc : AnalysisResults,
      appRun ((appRun doc).2) = appRun doc
      ∧ (appRun doc).2 = doc
      ∧ ((appRun doc).1.map Prod.snd).Perm doc.resorts := by
  intro doc
  refine ⟨rfl, rfl, ?_⟩
  show ((rankedResorts doc.resorts).map Prod.snd).Perm doc.resorts
  rw [rankedResorts_map_snd]
  exact sortedResorts_perm _

/-- C4: the ranker sorts the document's resorts by composite descending with
a stable sort (equal composites retain input order) and assigns rank equal
to the 1-based position — consecutive ranks, no gaps, none shared; for
composites [7, 9, 7] in input order [R1, R2, R3] the output is R2 rank 1,
R1 rank 2, R3 rank 3. -/
theorem claim_C4_ranking_sorted_stable_ranked :
    rankedResorts [R1, R2, R3] = [(1, R2), (2, R1), (3, R3)]
    ∧ compositeOf R1 = 7 ∧ compositeOf R2 = 9 ∧ compositeOf R3 = 7
    ∧ (∀ rs : List Resort,
        (sortedResorts rs).Perm rs
        ∧ (sortedResorts rs).Pairwise (fun a b => compositeOf b ≤ compositeOf a)
        ∧ (∀ q : ℚ, (sortedResorts rs).filter (fun r => compositeOf r == q)
            = rs.filter (fun r => compositeOf r == q))
        ∧ (rankedResorts rs).map Prod.fst = List.range' 1 rs.length) := by
  have hc1 : compositeOf R1 = 7 := by
    simp [compositeOf, calcAverages, fieldValues, contribs, ratingContribs,
      R1, resortQ, mkCam, mkAvg, meanQ, pushField, setKey, List.lookup]
  have hc2 : compositeOf R2 = 9 := by
    simp [compositeOf, calcAverages, fieldValues, contribs, ratingContribs,
      R2, resortQ, mkCam, mkAvg, meanQ, pushField, setKey, List.lookup]
  have hc3 : compositeOf R3 = 7 := by
    simp [compositeOf, calcAverages, fieldValues, contribs, ratingContribs,
      R3, resortQ, mkCam, mkAvg, meanQ, pushField, setKey, List.lookup]
  have h97 : ¬((9 : ℚ) ≤ 7) := by norm_num
  have h79 : (7 : ℚ) ≤ 9 := by norm_num
  have hsort : sortedResorts [R1, R2, R3] = [R2, R1, R3] := by
    simp [sortedResorts, insertDesc, hc1, hc2, hc3, h97, h79]
  refine ⟨?_, hc1, hc2, hc3,
    fun rs => ⟨sortedResorts_perm rs, sortedResorts_pairwise rs,
      fun q => sortedResorts_stable rs q, rankedResorts_map_fst rs⟩⟩
  rw [rankedResorts, hsort]
  rfl

/-- C5: every field's average is the sum of the values contributed for that
field divided by the number of cameras that contributed one — a camera with
a missing or null value for the field leaves that field's denominator,
never contributing a zero; cameras contributing quality 8 and
quality 4 / weather 6 yield quality 6 and weather 6. -/
theorem claim_C5_field_mean_over_contributors :
    (∀ (cams : List Camera) (k : String), k ≠ "composite" →
        (∀ c ∈ cams, (camContribs c k).length ≤ 1) →
        fieldContribs cams k ≠ [] →
        List.lookup k (calcAverages cams)
          = some ((fieldContribs cams k).sum
              / ((cams.filter (fun c => !(camContribs c k).isEmpty)).length : ℚ)))
    ∧ List.lookup "quality" (calcAverages [camA, camB]) = some 6
    ∧ List.lookup "weather" (calcAverages [camA, camB]) = some 6 := by
  have huniv : ∀ (cams : List Camera) (k : String), k ≠ "composite" →
      (∀ c ∈ cams, (camContribs c k).length ≤ 1) →
      fieldContribs cams k ≠ [] →
      List.lookup k (calcAverages cams)
        = some ((fieldContribs cams k).sum
            / ((cams.filter (fun c => !(camContribs c k).isEmpty)).length : ℚ)) := by
    intro cams k hk hle hne
    have hlen : ((fieldContribs cams k).length : ℚ)
        = ((cams.filter (fun c => !(camContribs c k).isEmpty)).length : ℚ) := by
      rw [fieldContribs_eq_camContribs, length_flatMap_of_le_one cams k hle]
    rw [lookup_field_calcAverages cams k hk hne, meanQ, hlen]
  have hval : calcAverages [camA, camB]
      = [("quality", 6), ("weather", 6), ("composite", 6)] := by
    simp [calcAverages, fieldValues, contribs, ratingContribs, camA, camB,
      mkCam, mkAvg, meanQ, pushField, setKey]
    norm_num
  refine ⟨huniv, ?_, ?_⟩ <;> rw [hval] <;> decide

/-- C5 witness: the universal part of C5 applied to spec P2's two cameras
and the field `quality`. -/
theorem claim_C5_witness :
    List.lookup "quality" (calcAverages [camA, camB])
      = some ((fieldContribs [camA, camB] "quality").sum
          / (([camA, camB].filter
              (fun c => !(camContribs c "quality").isEmpty)).length : ℚ)) :=
  claim_C5_field_mean_over_contributors.1 [camA, camB] "quality"
    (by decide) (by decide) (by decide)

/-- C6: for every resort with at least one rated camera (whose well-typed
ratings carry a numeric confidence, and whose categories do not use the
reserved key `confidence`), the averages contain a `confidence` key holding
the arithmetic mean of the confidence values across the cameras that have a
rating, retrievable separately from the composite entry. -/
theorem claim_C6_confidence_mean :
    ∀ cams : List Camera,
      cams.filterMap Camera.rating ≠ [] →
      (∀ r ∈ cams.filterMap Camera.rating, r.confidence ≠ none) →
      (∀ r ∈ cams.filterMap Camera.rating, ∀ kv ∈ r.categories, kv.1 ≠ "confidence") →
      List.lookup "confidence" (calcAverages cams)
        = some (((cams.filterMap Camera.rating).filterMap Rating.confidence).sum
            / ((cams.filterMap Camera.rating).length : ℚ))
      ∧ (List.lookup "composite" (calcAverages cams)).isSome := by
  intro cams h1 h2 h3
  have hfc := fieldContribs_confidence cams h3
  have hlen := length_filterMap_confidence (cams.filterMap Camera.rating) h2
  have hne : fieldContribs cams "confidence" ≠ [] := by
    rw [hfc]
    intro hnil
    apply h1
    apply List.length_eq_zero.mp
    rw [← hlen, hnil]
    rfl
  refine ⟨?_, lookup_composite_isSome cams⟩
  rw [lookup_field_calcAverages cams "confidence" (by decide) hne, meanQ, hfc, hlen]

/-- C6 witness: C6 applied to two rated cameras with confidences 8 and 4. -/
theorem claim_C6_witness :
    List.lookup "confidence" (calcAverages [camConf1, camConf2])
      = some ((([camConf1, camConf2].filterMap Camera.rating).filterMap
            Rating.confidence).sum
          / (([camConf1, camConf2].filterMap Camera.rating).length : ℚ))
    ∧ (List.lookup "composite" (calcAverages [camConf1, camConf2])).isSome :=
  claim_C6_confidence_mean [camConf1, camConf2] (by decide) (by decide) (by decide)

/-- C9: the returned map always contains the key `composite`, its keys have
no duplicates, and its remaining keys are exactly the field names for which
at least one camera contributed a numeric value (stated for inputs whose
category keys do not use the reserved name `composite`). -/
theorem claim_C9_keys_exactly_contributed :
    ∀ cams : List Camera,
      "composite" ∉ (contribs cams).map (fun kv => kv.1) →
      "composite" ∈ (calcAverages cams).map Prod.fst
      ∧ ((calcAverages cams).map Prod.fst).Nodup
      ∧ ∀ k : String, k ∈ (calcAverages cams).map Prod.fst ↔
          (k = "composite" ∨ ∃ c ∈ cams, camContribs c k ≠ []) := by
  intro cams h
  have hkeys := keys_calcAverages cams h
  have hnodupCF : (contributedFields cams).Nodup := by
    rw [contributedFields]
    exact nodup_dedup_foldl _ [] List.nodup_nil
  have hnotin : "composite" ∉ contributedFields cams :=
    fun hmem => h ((mem_contributedFields cams "composite").mp hmem)
  refine ⟨composite_mem_keys cams, ?_, ?_⟩
  · rw [hkeys]
    simp [List.nodup_append, hnodupCF, hnotin]
  · intro k
    have hiff : k ∈ contributedFields cams ↔ ∃ c ∈ cams, camContribs c k ≠ [] := by
      rw [mem_contributedFields, ← fieldContribs_ne_nil_iff, fieldContribs_ne_iff_exists]
    rw [hkeys]
    simp only [List.mem_append, List.mem_singleton]
    constructor
    · rintro (hmem | hcomp)
      · exact Or.inr (hiff.mp hmem)
      · exact Or.inl hcomp
    · rintro (rfl | hex)
      · exact Or.inr rfl
      · exact Or.inl (hiff.mpr hex)

/-- C9 witness: C9 applied to a one-camera resort contributing `quality`. -/
theorem claim_C9_witness :
    "composite" ∈ (calcAverages [camA]).map Prod.fst
    ∧ ((calcAverages [camA]).map Prod.fst).Nodup
    ∧ ("weather" ∈ (calcAverages [camA]).map Prod.fst ↔
        ("weather" = "composite" ∨ ∃ c ∈ [camA], camContribs c "weather" ≠ [])) := by
  have h := claim_C9_keys_exactly_contributed [camA] (by decide)
  exact ⟨h.1, h.2.1, h.2.2 "weather"⟩

/-- C10: the output depends only on each camera's rating (its confidence
and categories): camera lists agreeing on every camera's rating view but
differing in camera_name, image_url, is_base64, error, or the rating's
notes produce identical averages; in particular a camera with both a
non-null rating and a non-null error is treated as rated and participates. -/
theorem claim_C10_depends_only_on_rating :
    (∀ cs1 cs2 : List Camera, cs1.map ratingView = cs2.map ratingView →
        calcAverages cs1 = calcAverages cs2)
    ∧ calcAverages [ratedErr] = calcAverages [ratedPlain]
    ∧ List.lookup "quality" (calcAverages [ratedErr]) = some 7 := by
  have hval : calcAverages [ratedErr]
      = [("confidence", 9), ("quality", 7), ("composite", 8)] := by
    simp [calcAverages, fieldValues, contribs, ratingContribs, ratedErr,
      mkAvg, meanQ, pushField, setKey]
    norm_num
  refine ⟨calcAverages_view_congr, calcAverages_view_congr _ _ rfl, ?_⟩
  rw [hval]
  decide

/-- C10 witness: the universal part of C10 applied to the two concrete
cameras that differ in everything but their rating's confidence and
categories. -/
theorem claim_C10_witness :
    calcAverages [ratedErr] = calcAverages [ratedPlain] :=
  claim_C10_depends_only_on_rating.1 [ratedErr] [ratedPlain] rfl

end SkiResort
